import Mathlib

/-!
Verification of the sentra-emo affective-analysis core.

The Python modules `app/analysis.py`, `app/models.py` and `app/main.py` are
shallowly embedded below.  Python floats are modelled as rationals (`ℚ`),
Python strings as `String`, Python dicts as association lists (or, for the
fixed three-key sentiment dict, a record of optional fields), Python sets as
`Finset String`.  Module-level globals (the VAD mapper, the negative-label
set, configuration getters) are passed explicitly as parameters.
-/

namespace SentraEmo

/-- Python `needle in haystack` substring test on strings. -/
def strContains (needle hay : String) : Bool :=
  (List.range (hay.data.length + 1)).any fun i =>
    needle.data.isPrefixOf (hay.data.drop i)

/-- Python `str.lower()` (character-wise lowering, as in the ASCII labels the
service handles). -/
def pyLower (s : String) : String :=
  ⟨s.data.map Char.toLower⟩

/-- Python `max(a, b)`: the second argument wins only when strictly larger. -/
def pyMax (a b : ℚ) : ℚ :=
  if a < b then b else a

/-- Python `min(a, b)`: the second argument wins only when strictly smaller. -/
def pyMin (a b : ℚ) : ℚ :=
  if b < a then b else a

lemma pyMax_eq_max (a b : ℚ) : pyMax a b = max a b := by
  rw [pyMax]
  rcases le_or_lt b a with h | h
  · rw [if_neg (not_lt.mpr h), max_eq_left h]
  · rw [if_pos h, max_eq_right h.le]

lemma pyMin_eq_min (a b : ℚ) : pyMin a b = min a b := by
  rw [pyMin]
  rcases le_or_lt a b with h | h
  · rw [if_neg (not_lt.mpr h), min_eq_left h]
  · rw [if_pos h, min_eq_right h.le]

/-- `app/analysis.py` `VADMapper`: canonical lower-case label -> (v,a,d)
mapping plus a lower-case alias table, both modelled as association lists
(the constructor lower-cases all keys; we work with the constructed state).
The source field name `alias` is a Lean keyword, hence `aliasTable`. -/
structure VADMapper where
  mapping : List (String × (ℚ × ℚ × ℚ))
  aliasTable : List (String × String)

/-- `VADMapper.canonical`: lower-case the label and resolve through the alias
table, absent entries pass through unchanged. -/
def VADMapper.canonical (m : VADMapper) (label : String) : String :=
  let l := pyLower label
  (m.aliasTable.lookup l).getD l

/-- `VADMapper.map_label`: table lookup of the canonical form, neutral
fallback (0.5, 0.5, 0.5) on a miss. -/
def VADMapper.map_label (m : VADMapper) (label : String) : ℚ × ℚ × ℚ :=
  let key := m.canonical label
  (m.mapping.lookup key).getD (1/2, 1/2, 1/2)

/-- One iteration of the `map_distribution` accumulation loop:
accumulator is (v, a, d, total). -/
def mapDistStep (m : VADMapper) (acc : ℚ × ℚ × ℚ × ℚ) (p : String × ℚ) :
    ℚ × ℚ × ℚ × ℚ :=
  let vad := m.map_label p.1
  (acc.1 + p.2 * vad.1, acc.2.1 + p.2 * vad.2.1, acc.2.2.1 + p.2 * vad.2.2,
    acc.2.2.2 + p.2)

/-- `VADMapper.map_distribution`: score-weighted average of per-label VAD
vectors with the neutral fallback for the empty or non-positive-mass case. -/
def VADMapper.map_distribution (m : VADMapper) (distribution : List (String × ℚ)) :
    ℚ × ℚ × ℚ :=
  if distribution.isEmpty then (1/2, 1/2, 1/2)
  else
    let acc := distribution.foldl (mapDistStep m) (0, 0, 0, 0)
    if acc.2.2.2 ≤ 0 then (1/2, 1/2, 1/2)
    else (acc.1 / acc.2.2.2, acc.2.1 / acc.2.2.2, acc.2.2.1 / acc.2.2.2)

/-- The accumulation loop of `map_distribution` computes exactly the
componentwise sums of `score * vad` and the sum of scores. -/
lemma foldl_mapDistStep (m : VADMapper) (l : List (String × ℚ)) :
    ∀ v a d t, l.foldl (mapDistStep m) (v, a, d, t) =
      (v + (l.map fun p => p.2 * (m.map_label p.1).1).sum,
       a + (l.map fun p => p.2 * (m.map_label p.1).2.1).sum,
       d + (l.map fun p => p.2 * (m.map_label p.1).2.2).sum,
       t + (l.map fun p => p.2).sum) := by
  induction l with
  | nil => intro v a d t; simp
  | cons hd tl ih =>
    intro v a d t
    simp only [List.foldl_cons, List.map_cons, List.sum_cons, mapDistStep, ih]
    simp [add_assoc]

/-- C1. `map_distribution` returns the neutral fallback (0.5,0.5,0.5) exactly
when the distribution is empty or the sum of its scores is ≤ 0, and otherwise
returns, independently for each axis, the sum of score times the per-label
VAD (table entry of the canonicalized label, (0.5,0.5,0.5) when absent)
divided by the total score. -/
theorem c1_map_distribution_weighted_average (m : VADMapper)
    (D : List (String × ℚ)) :
    m.map_distribution D =
      if D = [] ∨ (D.map fun p => p.2).sum ≤ 0 then (1/2, 1/2, 1/2)
      else
        ((D.map fun p => p.2 * ((m.mapping.lookup (m.canonical p.1)).getD
            (1/2, 1/2, 1/2)).1).sum / (D.map fun p => p.2).sum,
         (D.map fun p => p.2 * ((m.mapping.lookup (m.canonical p.1)).getD
            (1/2, 1/2, 1/2)).2.1).sum / (D.map fun p => p.2).sum,
         (D.map fun p => p.2 * ((m.mapping.lookup (m.canonical p.1)).getD
            (1/2, 1/2, 1/2)).2.2).sum / (D.map fun p => p.2).sum) := by
  have hml : ∀ p : String × ℚ, m.map_label p.1 =
      (m.mapping.lookup (m.canonical p.1)).getD (1/2, 1/2, 1/2) := by
    intro p; rfl
  unfold VADMapper.map_distribution
  rcases eq_or_ne D [] with hD | hD
  · subst hD; simp
  · have hne : D.isEmpty = false := by simpa [List.isEmpty_iff] using hD
    rw [hne, foldl_mapDistStep m D 0 0 0 0]
    by_cases h : (D.map fun p => p.2).sum ≤ 0 <;>
      simp [hD, h, hml]

/-- `app/analysis.py` `normalize_distribution`: clamp negatives, divide by the
total, uniform 1/n fallback when the clamped total is ≤ 0. -/
def normalize_distribution (pairs : List (String × ℚ)) : List (String × ℚ) :=
  let total := (pairs.map fun p => pyMax 0 p.2).sum
  if total ≤ 0 then
    let n : ℕ := if pairs.isEmpty then 1 else pairs.length
    pairs.map fun p => (p.1, (1 : ℚ) / n)
  else pairs.map fun p => (p.1, pyMax 0 p.2 / total)

/-- `app/models.py` `ModelManager._normalize_scores`, modelled after the
label/score extraction step: when `normalize` is set and the clamped total is
positive, clamp and divide; otherwise the pairs are returned unchanged. -/
def _normalize_scores (pairs : List (String × ℚ)) (normalize : Bool) :
    List (String × ℚ) :=
  if normalize then
    let total := (pairs.map fun p => pyMax 0 p.2).sum
    if 0 < total then pairs.map fun p => (p.1, pyMax 0 p.2 / total) else pairs
  else pairs

/-- `app/analysis.py` `derive_stress`: negative-emotion mass accumulation,
the 0.6/0.4/0.15 linear combination clamped to [0,1], and the three-level
bucket.  The process-global negative-label set and VAD mapper are passed as
parameters (the source's Python-truthiness check on the set is kept). -/
def derive_stress (valence arousal : ℚ) (distribution : List (String × ℚ))
    (negLabels : Finset String) (m : VADMapper) : ℚ × String :=
  let neg_sum := distribution.foldl
    (fun acc p =>
      if negLabels.Nonempty ∧ m.canonical p.1 ∈ negLabels then acc + p.2
      else acc) 0
  let stress := 6/10 * (1 - valence) + 4/10 * arousal + 15/100 * neg_sum
  let stress2 := pyMax 0 (pyMin 1 stress)
  if stress2 < 33/100 then (stress2, "low")
  else if stress2 < 66/100 then (stress2, "medium")
  else (stress2, "high")

/-- `app/analysis.py` `canonicalize_distribution`: fresh list with labels
canonicalized and scores converted to float (the identity on our rationals);
the input list is not touched (the embedding is pure, matching the source,
which only appends to a new `res` list). -/
def canonicalize_distribution (m : VADMapper) (distribution : List (String × ℚ)) :
    List (String × ℚ) :=
  distribution.map fun p => (m.canonical p.1, p.2)

lemma sum_map_div (l : List (String × ℚ)) (f : String × ℚ → ℚ) (c : ℚ) :
    (l.map fun x => f x / c).sum = (l.map f).sum / c := by
  induction l with
  | nil => simp
  | cons h t ih => simp [ih, add_div]

lemma sum_map_const_q (l : List (String × ℚ)) (c : ℚ) :
    (l.map fun _ => c).sum = l.length * c := by
  induction l with
  | nil => simp
  | cons h t ih => simp [ih]; ring

/-- The negative-mass accumulation loop of `derive_stress` equals the sum of
scores over the entries whose canonical label lies in the set (the source's
extra non-emptiness test on the set is redundant). -/
lemma foldl_negsum (negLabels : Finset String) (m : VADMapper)
    (l : List (String × ℚ)) : ∀ acc : ℚ,
    l.foldl (fun acc p =>
        if negLabels.Nonempty ∧ m.canonical p.1 ∈ negLabels then acc + p.2
        else acc) acc =
      acc + ((l.filter fun p => decide (m.canonical p.1 ∈ negLabels)).map
        Prod.snd).sum := by
  induction l with
  | nil => intro acc; simp
  | cons hd tl ih =>
    intro acc
    by_cases h : m.canonical hd.1 ∈ negLabels
    · have hcond : negLabels.Nonempty ∧ m.canonical hd.1 ∈ negLabels :=
        ⟨⟨_, h⟩, h⟩
      rw [List.foldl_cons, if_pos hcond, ih,
        List.filter_cons_of_pos (by simpa using h), List.map_cons,
        List.sum_cons]
      ring
    · rw [List.foldl_cons, if_neg (fun hc => h hc.2), ih,
        List.filter_cons_of_neg (by simpa using h)]

/-- C2. `derive_stress` returns the clamped linear combination
0.6(1-V) + 0.4A + 0.15·neg_mass where neg_mass sums the scores of the
entries with canonicalized label in the negative set, and the level is
"low" iff score < 0.33, "medium" iff 0.33 ≤ score < 0.66 and "high" iff
score ≥ 0.66 (so 0.33 is medium and 0.66 is high). -/
theorem c2_derive_stress_formula_and_levels (valence arousal : ℚ)
    (dist : List (String × ℚ)) (negLabels : Finset String) (m : VADMapper) :
    (derive_stress valence arousal dist negLabels m).1 =
      max 0 (min 1 (6/10 * (1 - valence) + 4/10 * arousal + 15/100 *
        ((dist.filter fun p => decide (m.canonical p.1 ∈ negLabels)).map
          Prod.snd).sum))
    ∧ ((derive_stress valence arousal dist negLabels m).2 = "low" ↔
        (derive_stress valence arousal dist negLabels m).1 < 33/100)
    ∧ ((derive_stress valence arousal dist negLabels m).2 = "medium" ↔
        33/100 ≤ (derive_stress valence arousal dist negLabels m).1 ∧
        (derive_stress valence arousal dist negLabels m).1 < 66/100)
    ∧ ((derive_stress valence arousal dist negLabels m).2 = "high" ↔
        66/100 ≤ (derive_stress valence arousal dist negLabels m).1) := by
  have hlm : ("low" : String) ≠ "medium" := by decide
  have hlh : ("low" : String) ≠ "high" := by decide
  have hml : ("medium" : String) ≠ "low" := by decide
  have hmh : ("medium" : String) ≠ "high" := by decide
  have hhl : ("high" : String) ≠ "low" := by decide
  have hhm : ("high" : String) ≠ "medium" := by decide
  have key : derive_stress valence arousal dist negLabels m =
      (if max 0 (min 1 (6/10 * (1 - valence) + 4/10 * arousal + 15/100 *
          ((dist.filter fun p => decide (m.canonical p.1 ∈ negLabels)).map
            Prod.snd).sum)) < 33/100 then
        (max 0 (min 1 (6/10 * (1 - valence) + 4/10 * arousal + 15/100 *
          ((dist.filter fun p => decide (m.canonical p.1 ∈ negLabels)).map
            Prod.snd).sum)), "low")
      else if max 0 (min 1 (6/10 * (1 - valence) + 4/10 * arousal + 15/100 *
          ((dist.filter fun p => decide (m.canonical p.1 ∈ negLabels)).map
            Prod.snd).sum)) < 66/100 then
        (max 0 (min 1 (6/10 * (1 - valence) + 4/10 * arousal + 15/100 *
          ((dist.filter fun p => decide (m.canonical p.1 ∈ negLabels)).map
            Prod.snd).sum)), "medium")
      else
        (max 0 (min 1 (6/10 * (1 - valence) + 4/10 * arousal + 15/100 *
          ((dist.filter fun p => decide (m.canonical p.1 ∈ negLabels)).map
            Prod.snd).sum)), "high")) := by
    simp only [derive_stress, foldl_negsum negLabels m dist 0, zero_add,
      pyMax_eq_max, pyMin_eq_min]
  rw [key]
  set st := max 0 (min 1 (6/10 * (1 - valence) + 4/10 * arousal + 15/100 *
    ((dist.filter fun p => decide (m.canonical p.1 ∈ negLabels)).map
      Prod.snd).sum)) with hst
  split_ifs with h1 h2
  · have h66 : ¬ (66/100 ≤ st) := not_le.mpr (h1.trans (by norm_num))
    refine ⟨rfl, ?_, ?_, ?_⟩
    · simp [h1]
    · simp [hlm, not_le.mpr h1]
    · simp [hlh, h66]
  · refine ⟨rfl, ?_, ?_, ?_⟩
    · simp [hml, h1]
    · simp [not_lt.mp h1, h2]
    · simp [hmh, not_le.mpr h2]
  · refine ⟨rfl, ?_, ?_, ?_⟩
    · simp [hhl, h1]
    · simp [hhm, h2]
    · simp [not_lt.mp h2]

/-- C4 (corrected). `normalize_distribution` on non-empty input yields scores
summing to 1, with the uniform 1/n fallback when the clamped total is ≤ 0.
The pipeline's `_normalize_scores`, however, returns the pairs unchanged when
the clamped total is ≤ 0 (no uniform fallback), and yields sum 1 only when
the clamped total is positive. -/
theorem c4_normalization_amended (pairs : List (String × ℚ)) :
    (pairs ≠ [] →
      ((normalize_distribution pairs).map Prod.snd).sum = 1 ∧
      ((pairs.map fun p => max 0 p.2).sum ≤ 0 →
        normalize_distribution pairs =
          pairs.map fun p => (p.1, 1 / (pairs.length : ℚ))))
    ∧ ((pairs.map fun p => max 0 p.2).sum ≤ 0 →
        _normalize_scores pairs true = pairs)
    ∧ (0 < (pairs.map fun p => max 0 p.2).sum →
        ((_normalize_scores pairs true).map Prod.snd).sum = 1) := by
  have hclamp : ∀ T : ℚ, ((pairs.map fun p => (p.1, max 0 p.2 / T)).map
      Prod.snd).sum = (pairs.map fun p => max 0 p.2).sum / T := by
    intro T
    rw [List.map_map]
    have h : (Prod.snd ∘ fun p : String × ℚ => (p.1, max 0 p.2 / T)) =
        fun p : String × ℚ => (max 0 p.2) / T := rfl
    rw [h, sum_map_div]
  refine ⟨?_, ?_, ?_⟩
  · intro hne
    have hempty : pairs.isEmpty = false := by
      simpa [List.isEmpty_iff] using hne
    have hn : (pairs.length : ℚ) ≠ 0 := by
      exact_mod_cast fun h => hne (List.length_eq_zero.mp h)
    constructor
    · simp only [normalize_distribution, pyMax_eq_max, hempty,
        Bool.false_eq_true, if_false]
      split_ifs with h
      · rw [List.map_map]
        have he : (Prod.snd ∘ fun p : String × ℚ =>
            (p.1, (1 : ℚ) / (pairs.length : ℚ))) =
            fun _ : String × ℚ => (1 : ℚ) / (pairs.length : ℚ) := rfl
        rw [he, sum_map_const_q]
        field_simp
      · rw [hclamp]
        exact div_self (ne_of_gt (not_le.mp h))
    · intro h
      simp only [normalize_distribution, pyMax_eq_max, hempty,
        Bool.false_eq_true, if_false, if_pos h]
  · intro h
    simp only [_normalize_scores, pyMax_eq_max, if_pos rfl, if_true]
    rw [if_neg (not_lt.mpr h)]
  · intro h
    simp only [_normalize_scores, pyMax_eq_max, if_true]
    rw [if_pos h, hclamp]
    exact div_self (ne_of_gt h)

/-- C4 counterexample to the claim as stated: the pipeline normalization
`_normalize_scores` applied to [("a", 0)] (clamped total 0 ≤ 0) returns the
input unchanged instead of the uniform fallback, and its scores sum to 0,
not 1. -/
theorem c4_counterexample :
    _normalize_scores [("a", 0)] true = [("a", 0)] ∧
    ((_normalize_scores [("a", 0)] true).map Prod.snd).sum ≠ 1 := by
  have h : _normalize_scores [("a", 0)] true = [("a", 0)] := by
    norm_num [_normalize_scores, pyMax]
  refine ⟨h, ?_⟩
  rw [h]
  norm_num

/-- C4 witness: at the concrete input [("a", 0)] (clamped total ≤ 0) the
amended theorem yields the uniform fallback with unit mass. -/
theorem c4_normalization_amended_witness :
    ((normalize_distribution [("a", 0)]).map Prod.snd).sum = 1 ∧
    normalize_distribution [("a", 0)] = [("a", 1)] := by
  have h := (c4_normalization_amended [("a", 0)]).1 (by simp)
  refine ⟨h.1, ?_⟩
  have h2 := h.2 (by norm_num)
  simpa using h2

/-- C10. `canonicalize_distribution` preserves length and order, replacing
each label by its canonical form and keeping each score. -/
theorem c10_canonicalize_distribution_pointwise (m : VADMapper)
    (dist : List (String × ℚ)) :
    (canonicalize_distribution m dist).length = dist.length ∧
    ∀ (i : ℕ) (p : String × ℚ), dist[i]? = some p →
      (canonicalize_distribution m dist)[i]? = some (m.canonical p.1, p.2) := by
  refine ⟨by simp [canonicalize_distribution], ?_⟩
  intro i p hp
  rw [canonicalize_distribution, List.getElem?_map, hp, Option.map_some']

/-- C10 witness: a concrete alias resolution through the pointwise theorem. -/
theorem c10_canonicalize_distribution_witness :
    (canonicalize_distribution ⟨[], [("joy", "happiness")]⟩
        [("Joy", 7/10)])[0]? = some ("happiness", 7/10) := by
  have h := (c10_canonicalize_distribution_pointwise
    ⟨[], [("joy", "happiness")]⟩ [("Joy", 7/10)]).2 0 ("Joy", 7/10) rfl
  have hc : (VADMapper.canonical ⟨[], [("joy", "happiness")]⟩ "Joy")
      = "happiness" := by decide
  rw [hc] at h
  exact h

/-- `app/main.py` `_record_latency_ms`, buffer part: append, then compact to
the most recent 1000 entries when the buffer exceeds 2000
(`del buf[:len(buf) - 1000]`). -/
def _record_latency_ms (buf : List ℚ) (ms : ℚ) : List ℚ :=
  let b := buf ++ [ms]
  if 2000 < b.length then b.drop (b.length - 1000) else b

/-- `app/main.py` `_record_emotion_top1`: append (score, timestamp) to two
parallel buffers; when the score buffer exceeds 2000 entries, both buffers
are compacted to their most recent 1000 entries. -/
def _record_emotion_top1 (scores times : List ℚ) (score t : ℚ) :
    List ℚ × List ℚ :=
  let s := scores ++ [score]
  let tt := times ++ [t]
  if 2000 < s.length then
    (s.drop (s.length - 1000), tt.drop (tt.length - 1000))
  else (s, tt)

/-- C5 counterexample to the claim as stated: recording into a full buffer of
2000 entries leaves 1000 entries, not 1000 + 1. -/
theorem c5_counterexample :
    (_record_latency_ms (List.replicate 2000 0) 1).length = 1000 ∧
    (_record_latency_ms (List.replicate 2000 0) 1).length ≠ 1001 := by
  have hlen : (List.replicate 2000 (0:ℚ) ++ [1]).length = 2001 := by
    rw [List.length_append, List.length_replicate, List.length_singleton]
  have h : (_record_latency_ms (List.replicate 2000 0) 1).length = 1000 := by
    simp only [_record_latency_ms]
    rw [if_pos (by rw [hlen]; omega), List.length_drop, hlen]
  exact ⟨h, by rw [h]; decide⟩

/-- C5 (corrected). Record calls never leave more than 2000 entries in the
latency or top-1 buffers; when a call overflows the cap the compaction keeps
exactly the 1000 most-recent entries (999 prior survivors plus the
just-appended one), dropping the 1001 oldest; the survivors are always a
suffix of the appended buffer (drop-oldest, never arbitrary eviction).  The
top-1 timestamp buffer obeys the same cap and compaction in lock-step with
the score buffer (whose length it always shares, cf. the C9 invariant). -/
theorem c5_buffers_capped_amended (buf scores times : List ℚ) (ms sc t : ℚ) :
    (buf.length ≤ 2000 → (_record_latency_ms buf ms).length ≤ 2000)
    ∧ (_record_latency_ms buf ms).IsSuffix (buf ++ [ms])
    ∧ (buf.length = 2000 →
        _record_latency_ms buf ms = (buf ++ [ms]).drop 1001 ∧
        (_record_latency_ms buf ms).length = 1000)
    ∧ (scores.length ≤ 2000 →
        (_record_emotion_top1 scores times sc t).1.length ≤ 2000)
    ∧ (_record_emotion_top1 scores times sc t).1.IsSuffix (scores ++ [sc])
    ∧ (_record_emotion_top1 scores times sc t).2.IsSuffix (times ++ [t])
    ∧ (scores.length = 2000 →
        (_record_emotion_top1 scores times sc t).1 =
          (scores ++ [sc]).drop 1001 ∧
        (_record_emotion_top1 scores times sc t).1.length = 1000)
    ∧ (scores.length = times.length → times.length ≤ 2000 →
        (_record_emotion_top1 scores times sc t).2.length ≤ 2000)
    ∧ (scores.length = times.length → scores.length = 2000 →
        (_record_emotion_top1 scores times sc t).2 =
          (times ++ [t]).drop 1001 ∧
        (_record_emotion_top1 scores times sc t).2.length = 1000) := by
  refine ⟨?_, ?_, ?_, ?_, ?_, ?_, ?_, ?_, ?_⟩
  · intro h
    rw [_record_latency_ms]
    split_ifs with hc
    · simp only [List.length_drop, List.length_append, List.length_singleton]
      omega
    · simp only [List.length_append, List.length_singleton] at hc ⊢
      omega
  · simp only [_record_latency_ms]
    split_ifs with hc
    · exact List.drop_suffix _ _
    · exact List.suffix_refl _
  · intro h
    have hlen : (buf ++ [ms]).length = 2001 := by simp [h]
    have hcond : 2000 < (buf ++ [ms]).length := by omega
    rw [_record_latency_ms]
    simp only [if_pos hcond, hlen]
    exact ⟨rfl, by simp [List.length_drop, hlen]⟩
  · intro h
    rw [_record_emotion_top1]
    split_ifs with hc
    · simp only [List.length_drop, List.length_append, List.length_singleton]
      omega
    · simp only [List.length_append, List.length_singleton] at hc ⊢
      omega
  · simp only [_record_emotion_top1]
    split_ifs with hc
    · simp only []
      exact List.drop_suffix _ _
    · simp only []
      exact List.suffix_refl _
  · simp only [_record_emotion_top1]
    split_ifs with hc
    · simp only []
      exact List.drop_suffix _ _
    · simp only []
      exact List.suffix_refl _
  · intro h
    have hlen : (scores ++ [sc]).length = 2001 := by simp [h]
    have hcond : 2000 < (scores ++ [sc]).length := by omega
    rw [_record_emotion_top1]
    simp only [if_pos hcond, hlen]
    exact ⟨rfl, by simp [List.length_drop, hlen]⟩
  · intro heq hle
    simp only [_record_emotion_top1]
    split_ifs with hc
    · simp only [List.length_drop, List.length_append, List.length_singleton]
      omega
    · simp only [List.length_append, List.length_singleton] at hc ⊢
      omega
  · intro heq h
    have ht : times.length = 2000 := by omega
    have hlen : (scores ++ [sc]).length = 2001 := by simp [h]
    have hlent : (times ++ [t]).length = 2001 := by simp [ht]
    have hcond : 2000 < (scores ++ [sc]).length := by omega
    rw [_record_emotion_top1]
    simp only [if_pos hcond, hlent]
    exact ⟨by simp, by simp [List.length_drop, hlent]⟩

/-- C5 witness: a single record into an empty buffer keeps it within the cap
and as a suffix of the appended list. -/
theorem c5_buffers_capped_amended_witness :
    (_record_latency_ms [] 5).length ≤ 2000 ∧
    (_record_latency_ms [] 5).IsSuffix ([] ++ [5]) := by
  have h := c5_buffers_capped_amended [] [] [] 5 0 0
  exact ⟨h.1 (by decide), h.2.1⟩

/-- `app/main.py` process-wide `_metrics` dictionary (the buffers and
counters the claims concern; `start_time` is irrelevant here). -/
structure Metrics where
  inference_latencies_ms : List ℚ
  inference_count : ℕ
  error_count : ℕ
  emotion_top1_scores : List ℚ
  emotion_top1_times : List ℚ

/-- Initial `_metrics` state. -/
def initMetrics : Metrics :=
  ⟨[], 0, 0, [], []⟩

/-- `_record_latency_ms` as a state transformer (buffer update plus the
monotonic call counter). -/
def recordLatencyState (st : Metrics) (ms : ℚ) : Metrics :=
  { st with
    inference_count := st.inference_count + 1,
    inference_latencies_ms := _record_latency_ms st.inference_latencies_ms ms }

/-- `_record_emotion_top1` as a state transformer. -/
def recordTop1State (st : Metrics) (score t : ℚ) : Metrics :=
  let r := _record_emotion_top1 st.emotion_top1_scores st.emotion_top1_times
    score t
  { st with emotion_top1_scores := r.1, emotion_top1_times := r.2 }

/-- Outcome of one `/analyze` request as far as metrics are concerned. -/
inductive AnalyzeOutcome where
  | ok (canonPairs : List (String × ℚ)) (latencyMs tNow : ℚ)
  | err (latencyMs : ℚ)

/-- Metrics effects of the `/analyze` handler: latency is always recorded;
the top-1 sample is recorded only on success and only when the canonical
emotion distribution is non-empty (score of its first pair); the error
counter is bumped on failure. -/
def analyzeStep (st : Metrics) (o : AnalyzeOutcome) : Metrics :=
  match o with
  | .ok pairs lat t =>
    let st1 := recordLatencyState st lat
    match pairs with
    | [] => st1
    | (_, s) :: _ => recordTop1State st1 s t
  | .err lat =>
    let st1 := recordLatencyState st lat
    { st1 with error_count := st1.error_count + 1 }

/-- C9 counterexample to the claim as stated: a single failed request records
a latency sample but no top-1 sample, so the latency buffer length (1)
differs from the top-1 score buffer length (0). -/
theorem c9_counterexample :
    (analyzeStep initMetrics (.err 5)).inference_latencies_ms.length = 1 ∧
    (analyzeStep initMetrics (.err 5)).emotion_top1_scores.length = 0 ∧
    (analyzeStep initMetrics (.err 5)).inference_latencies_ms.length ≠
      (analyzeStep initMetrics (.err 5)).emotion_top1_scores.length := by
  have h1 : (analyzeStep initMetrics (.err 5)).inference_latencies_ms
      = [5] := by
    simp [analyzeStep, recordLatencyState, initMetrics, _record_latency_ms]
  have h2 : (analyzeStep initMetrics (.err 5)).emotion_top1_scores = [] := by
    simp [analyzeStep, recordLatencyState, initMetrics]
  rw [h1, h2]
  exact ⟨rfl, rfl, by decide⟩

/-- C9 (corrected). The emotion top-1 score and timestamp buffers never
diverge in length: the property is preserved by every request outcome and
holds after any request sequence from the initial state.  (The latency
buffer is not in lock-step with them: failed requests and successes with an
empty emotion distribution record latency only.) -/
theorem c9_top1_buffers_lockstep_amended :
    (∀ (st : Metrics) (o : AnalyzeOutcome),
      st.emotion_top1_scores.length = st.emotion_top1_times.length →
      (analyzeStep st o).emotion_top1_scores.length =
        (analyzeStep st o).emotion_top1_times.length)
    ∧ ∀ outs : List AnalyzeOutcome,
      (outs.foldl analyzeStep initMetrics).emotion_top1_scores.length =
        (outs.foldl analyzeStep initMetrics).emotion_top1_times.length := by
  have hstep : ∀ (st : Metrics) (o : AnalyzeOutcome),
      st.emotion_top1_scores.length = st.emotion_top1_times.length →
      (analyzeStep st o).emotion_top1_scores.length =
        (analyzeStep st o).emotion_top1_times.length := by
    intro st o h
    cases o with
    | err lat => simpa [analyzeStep, recordLatencyState] using h
    | ok pairs lat t =>
      cases pairs with
      | nil => simpa [analyzeStep, recordLatencyState] using h
      | cons hd tl =>
        obtain ⟨lbl, s⟩ := hd
        simp only [analyzeStep, recordTop1State, recordLatencyState,
          _record_emotion_top1]
        split_ifs with hc
        · simp only [List.length_drop, List.length_append,
            List.length_singleton]
          omega
        · simp only [List.length_append, List.length_singleton]
          omega
  refine ⟨hstep, ?_⟩
  have hgen : ∀ (outs : List AnalyzeOutcome) (st : Metrics),
      st.emotion_top1_scores.length = st.emotion_top1_times.length →
      (outs.foldl analyzeStep st).emotion_top1_scores.length =
        (outs.foldl analyzeStep st).emotion_top1_times.length := by
    intro outs
    induction outs with
    | nil => intro st h; simpa using h
    | cons o rest ih =>
      intro st h
      exact ih (analyzeStep st o) (hstep st o h)
  exact fun outs => hgen outs initMetrics rfl

/-- C9 witness: the lock-step preservation applied to the empty state and a
successful request carrying one emotion pair. -/
theorem c9_top1_buffers_lockstep_amended_witness :
    (analyzeStep initMetrics (.ok [("joy", 1)] 2 3)).emotion_top1_scores.length
      = (analyzeStep initMetrics
        (.ok [("joy", 1)] 2 3)).emotion_top1_times.length := by
  exact c9_top1_buffers_lockstep_amended.1 initMetrics
    (.ok [("joy", 1)] 2 3) rfl

/-- Python `int(x)` on a float: truncation toward zero. -/
def pyInt (x : ℚ) : ℤ :=
  if x < 0 then ⌈x⌉ else ⌊x⌋

/-- `app/main.py` `_percentile`: nearest-rank selection on the ascending
sorted values, index `int(q * (n - 1))` clamped to [0, n-1]; `none` for the
empty list (Python `None`). -/
def _percentile (values : List ℚ) (q : ℚ) : Option ℚ :=
  if values = [] then none
  else
    let s := List.insertionSort (· ≤ ·) values
    let n := s.length
    let idx := pyInt (q * ((n : ℚ) - 1))
    let idx2 := max 0 (min idx ((n : ℤ) - 1))
    some (s.getD idx2.toNat 0)

/-- C7. `_percentile` returns `none` on the empty list, and for a non-empty
list and q ∈ [0,1] returns the element at index ⌊q·(n−1)⌋ of the
ascending-sorted list (the clamp is a no-op there and `int` truncation
coincides with floor). -/
theorem c7_percentile_nearest_rank (values : List ℚ) (q : ℚ)
    (h0 : 0 ≤ q) (h1 : q ≤ 1) :
    _percentile [] q = none
    ∧ (values ≠ [] →
        _percentile values q =
          some ((List.insertionSort (· ≤ ·) values).getD
            (⌊q * ((values.length : ℚ) - 1)⌋).toNat 0)) := by
  constructor
  · rw [_percentile, if_pos rfl]
  · intro hne
    have hlen : (List.insertionSort (· ≤ ·) values).length = values.length :=
      (List.perm_insertionSort (· ≤ ·) values).length_eq
    have hn1 : 1 ≤ values.length := by
      cases values with
      | nil => exact absurd rfl hne
      | cons a l => exact Nat.succ_le_succ (Nat.zero_le _)
    have hq0 : (0 : ℚ) ≤ q * ((values.length : ℚ) - 1) := by
      have : (0 : ℚ) ≤ (values.length : ℚ) - 1 := by
        have : (1 : ℚ) ≤ (values.length : ℚ) := by exact_mod_cast hn1
        linarith
      positivity
    have hpy : pyInt (q * ((values.length : ℚ) - 1)) =
        ⌊q * ((values.length : ℚ) - 1)⌋ := by
      rw [pyInt, if_neg (not_lt.mpr hq0)]
    have hfl0 : (0 : ℤ) ≤ ⌊q * ((values.length : ℚ) - 1)⌋ :=
      Int.floor_nonneg.mpr hq0
    have hflub : ⌊q * ((values.length : ℚ) - 1)⌋ ≤ (values.length : ℤ) - 1 := by
      have hle : q * ((values.length : ℚ) - 1) ≤ (values.length : ℚ) - 1 := by
        have h2 : (0 : ℚ) ≤ (values.length : ℚ) - 1 := by
          have : (1 : ℚ) ≤ (values.length : ℚ) := by exact_mod_cast hn1
          linarith
        nlinarith
      calc ⌊q * ((values.length : ℚ) - 1)⌋
          ≤ ⌊(values.length : ℚ) - 1⌋ := Int.floor_le_floor hle
        _ = (values.length : ℤ) - 1 := by
            rw [show ((values.length : ℚ) - 1) = (((values.length : ℤ) - 1 : ℤ) : ℚ) by push_cast; ring,
              Int.floor_intCast]
    rw [_percentile, if_neg hne]
    simp only [hlen, hpy]
    rw [min_eq_left hflub, max_eq_right hfl0]

/-- C7 witness: percentile([10,20,30,40,50], 0.5) = 30. -/
theorem c7_percentile_nearest_rank_witness :
    _percentile [10, 20, 30, 40, 50] (1/2) = some 30 := by
  have h := (c7_percentile_nearest_rank [10, 20, 30, 40, 50] (1/2)
    (by norm_num) (by norm_num)).2 (by simp)
  rw [h]
  have hidx : (⌊(1/2 : ℚ) * ((([10, 20, 30, 40, 50] : List ℚ).length : ℚ)
      - 1)⌋ : ℤ) = 2 := by
    norm_num
  rw [hidx]
  have hsort : List.insertionSort (· ≤ ·) ([10, 20, 30, 40, 50] : List ℚ) =
      [10, 20, 30, 40, 50] := by
    norm_num [List.insertionSort, List.orderedInsert]
  rw [hsort]
  rfl

/-- Descending-by-score comparison used by the emotion selector's sort
(`key=lambda x: x[1], reverse=True`). -/
def scoreGe (a b : String × ℚ) : Prop :=
  b.2 ≤ a.2

instance : DecidableRel scoreGe :=
  fun a b => (inferInstance : Decidable (b.2 ≤ a.2))

instance : IsTotal (String × ℚ) scoreGe :=
  ⟨fun a b => le_total b.2 a.2⟩

instance : IsTrans (String × ℚ) scoreGe :=
  ⟨fun _ _ _ hab hbc => le_trans hbc hab⟩

/-- Python `max(x :: xs, key=lambda p: p[1])`: fold keeping the current
element unless a strictly larger score appears (first maximum wins). -/
def pyMaxBySnd (x : String × ℚ) (xs : List (String × ℚ)) : String × ℚ :=
  xs.foldl (fun acc p => if acc.2 < p.2 then p else acc) x

/-- `app/models.py` `ModelManager.analyze_emotions`, multi-label branch:
keep the entries with score ≥ threshold, sort descending by score, truncate
to top-K when the K configuration value is truthy, and fall back to the
single highest-scoring input entry when the selection is empty.  `topk = 0`
models a falsy configured K (Python `None` or `0`). -/
def analyze_emotions_multi (pairs : List (String × ℚ)) (thr : ℚ)
    (topk : ℕ) : List (String × ℚ) :=
  let selected := pairs.filter fun p => thr ≤ p.2
  let sortedSel := List.insertionSort scoreGe selected
  let truncated :=
    if topk ≠ 0 ∧ topk < sortedSel.length then sortedSel.take topk
    else sortedSel
  if truncated = [] then
    match pairs with
    | [] => []
    | x :: xs => [pyMaxBySnd x xs]
  else truncated

lemma pyMaxBySnd_spec (xs : List (String × ℚ)) : ∀ x : String × ℚ,
    pyMaxBySnd x xs ∈ x :: xs ∧ ∀ p ∈ x :: xs, p.2 ≤ (pyMaxBySnd x xs).2 := by
  induction xs with
  | nil =>
    intro x
    exact ⟨List.mem_singleton.mpr rfl, by
      intro p hp
      rw [List.mem_singleton] at hp
      subst hp
      exact le_refl _⟩
  | cons hd tl ih =>
    intro x
    have hstep : pyMaxBySnd x (hd :: tl) =
        pyMaxBySnd (if x.2 < hd.2 then hd else x) tl := by
      rw [pyMaxBySnd, pyMaxBySnd, List.foldl_cons]
    obtain ⟨ihm, ihb⟩ := ih (if x.2 < hd.2 then hd else x)
    constructor
    · rw [hstep]
      rcases List.mem_cons.mp ihm with h | h
      · rw [h]
        split_ifs with hc
        · exact List.mem_cons_of_mem _ (List.mem_cons_self _ _)
        · exact List.mem_cons_self _ _
      · exact List.mem_cons_of_mem _ (List.mem_cons_of_mem _ h)
    · intro p hp
      rw [hstep]
      rcases List.mem_cons.mp hp with h | h
      · subst h
        have hx : p.2 ≤ (if p.2 < hd.2 then hd else p).2 := by
          split_ifs with hc
          · exact hc.le
          · exact le_refl _
        exact hx.trans (ihb _ (List.mem_cons_self _ _))
      · rcases List.mem_cons.mp h with h2 | h2
        · subst h2
          have hx : p.2 ≤ (if x.2 < p.2 then p else x).2 := by
            split_ifs with hc
            · exact le_refl _
            · exact not_lt.mp hc
          exact hx.trans (ihb _ (List.mem_cons_self _ _))
        · exact ihb p (List.mem_cons_of_mem _ h2)

/-- C6. In multi-label mode the selector never returns an empty list on
non-empty input; its output is sorted descending by score and drawn from the
threshold selection; when the cap is unset or not exceeded the output is a
permutation of exactly the entries with score ≥ threshold; when a cap k is
set the output has min k (selection length) entries; and when no entry meets
the threshold, the output is exactly one entry of the input carrying its
maximal score. -/
theorem c6_emotion_selector_multi (pairs : List (String × ℚ)) (thr : ℚ)
    (topk : ℕ) (hne : pairs ≠ []) :
    analyze_emotions_multi pairs thr topk ≠ []
    ∧ (analyze_emotions_multi pairs thr topk).Sorted scoreGe
    ∧ (∀ p ∈ analyze_emotions_multi pairs thr topk,
        (pairs.filter fun p => thr ≤ p.2) ≠ [] →
        p ∈ pairs.filter fun p => thr ≤ p.2)
    ∧ ((pairs.filter fun p => thr ≤ p.2) ≠ [] →
        (topk = 0 ∨ (pairs.filter fun p => thr ≤ p.2).length ≤ topk) →
        (analyze_emotions_multi pairs thr topk).Perm
          (pairs.filter fun p => thr ≤ p.2))
    ∧ ((pairs.filter fun p => thr ≤ p.2) ≠ [] → topk ≠ 0 →
        (analyze_emotions_multi pairs thr topk).length =
          min topk (pairs.filter fun p => thr ≤ p.2).length)
    ∧ ((pairs.filter fun p => thr ≤ p.2) = [] →
        ∃ mx, analyze_emotions_multi pairs thr topk = [mx] ∧ mx ∈ pairs ∧
          ∀ p ∈ pairs, p.2 ≤ mx.2)
    ∧ ((pairs.filter fun p => thr ≤ p.2) ≠ [] →
        ∃ rest, (analyze_emotions_multi pairs thr topk ++ rest).Perm
            (pairs.filter fun p => thr ≤ p.2) ∧
          ∀ a ∈ analyze_emotions_multi pairs thr topk, ∀ b ∈ rest,
            b.2 ≤ a.2) := by
  obtain ⟨x, xs, rfl⟩ := List.exists_cons_of_ne_nil hne
  simp only [analyze_emotions_multi]
  set sel := (x :: xs).filter (fun p => thr ≤ p.2) with hsel
  have hperm : (List.insertionSort scoreGe sel).Perm sel :=
    List.perm_insertionSort scoreGe sel
  have hsorted : (List.insertionSort scoreGe sel).Sorted scoreGe :=
    List.sorted_insertionSort scoreGe sel
  have hlen : (List.insertionSort scoreGe sel).length = sel.length :=
    hperm.length_eq
  split_ifs with hcap hemp hemp
  · -- capped and truncation empty: impossible, the cap condition forces a
    -- selection longer than the positive cap
    exfalso
    rcases hcap with ⟨h0, hlt⟩
    have h1 : ((List.insertionSort scoreGe sel).take topk).length = topk := by
      rw [List.length_take]
      omega
    rw [hemp] at h1
    exact h0 (by simpa using h1.symm)
  · -- capped, truncation non-empty
    refine ⟨hemp, ?_, ?_, ?_, ?_, ?_, ?_⟩
    · exact List.Pairwise.sublist (List.take_sublist _ _) hsorted
    · intro p hp _
      exact hperm.mem_iff.mp (List.mem_of_mem_take hp)
    · intro _ hk
      exfalso
      rcases hcap with ⟨h0, hlt⟩
      rcases hk with hk | hk
      · exact h0 hk
      · rw [hlen] at hlt
        omega
    · intro _ _
      rw [List.length_take, hlen]
    · intro h
      rcases hcap with ⟨h0, hlt⟩
      rw [hlen, h] at hlt
      simp at hlt
    · intro _
      refine ⟨(List.insertionSort scoreGe sel).drop topk, ?_, ?_⟩
      · rw [List.take_append_drop]
        exact hperm
      · have hS : List.Pairwise scoreGe
            ((List.insertionSort scoreGe sel).take topk ++
              (List.insertionSort scoreGe sel).drop topk) := by
          rw [List.take_append_drop]
          exact hsorted
        intro a ha b hb
        exact (List.pairwise_append.mp hS).2.2 a ha b hb
  · -- uncapped and sorted selection empty: fall back to the input maximum
    have hselemp : sel = [] := by
      rw [hemp] at hperm
      exact (hperm.symm.eq_nil)
    obtain ⟨hmem, hbound⟩ := pyMaxBySnd_spec xs x
    refine ⟨by simp, List.sorted_singleton _, ?_, ?_, ?_, ?_, ?_⟩
    · intro p _ hselne
      exact absurd hselemp hselne
    · intro hselne
      exact absurd hselemp hselne
    · intro hselne
      exact absurd hselemp hselne
    · intro _
      exact ⟨pyMaxBySnd x xs, rfl, hmem, hbound⟩
    · intro hselne
      exact absurd hselemp hselne
  · -- uncapped, sorted selection non-empty
    refine ⟨hemp, hsorted, ?_, ?_, ?_, ?_, ?_⟩
    · intro p hp _
      exact hperm.mem_iff.mp hp
    · intro _ _
      exact hperm
    · intro hselne hk0
      rw [hlen]
      have hnc : ¬ (topk ≠ 0 ∧ topk < (List.insertionSort scoreGe sel).length) :=
        hcap
      rw [hlen] at hnc
      push_neg at hnc
      have := hnc hk0
      omega
    · intro h
      refine absurd ?_ hemp
      rw [h]
      simp [List.insertionSort]
    · intro _
      refine ⟨[], ?_, ?_⟩
      · rw [List.append_nil]
        exact hperm
      · intro a _ b hb
        exact absurd hb (List.not_mem_nil b)

/-- C6 witness: input where no entry meets the threshold, exercising the
non-empty guarantee and the top-1 fallback. -/
theorem c6_emotion_selector_multi_witness :
    analyze_emotions_multi [("joy", 7/10), ("sadness", 3/10)] 2 0 ≠ [] := by
  exact (c6_emotion_selector_multi [("joy", 7/10), ("sadness", 3/10)] 2 0
    (by simp)).1

/-- Parsed JSON values as Python sees them after `json.loads`. -/
inductive PyJson where
  | str (s : String)
  | num (n : ℚ)
  | bool (b : Bool)
  | null
  | arr (items : List PyJson)
  | obj (entries : List (String × PyJson))

/-- Python truthiness (`bool(v)`) on parsed JSON values. -/
def pyTruthy : PyJson → Bool
  | .str s => !(s == "")
  | .num n => !(n == 0)
  | .bool b => b
  | .null => false
  | .arr xs => !xs.isEmpty
  | .obj kvs => !kvs.isEmpty

/-- Python `str(x)` on parsed JSON values.  Negative-label files hold string
labels; the scalar cases follow CPython (`True`/`False`/`None`), container
reprs are approximated (they never arise in the claims). -/
def pyStr : PyJson → String
  | .str s => s
  | .num n => toString n
  | .bool b => if b then "True" else "False"
  | .null => "None"
  | .arr _ => ""
  | .obj _ => ""

/-- `app/analysis.py` `_load_negative_from_file` after a successful JSON
parse: a list of labels, an object with a `labels` list, or an object whose
truthy-valued keys are labels; any other parsed shape yields the empty set
(the source's `labels = set()` initialisation).  A parse failure is modelled
upstream as an absent file. -/
def _load_negative_from_file (data : PyJson) : Finset String :=
  match data with
  | .arr xs => (xs.map fun x => pyLower (pyStr x)).toFinset
  | .obj kvs =>
    match kvs.lookup "labels" with
    | some (.arr ls) => (ls.map fun x => pyLower (pyStr x)).toFinset
    | _ => ((kvs.filter fun kv => pyTruthy kv.2).map fun kv =>
        pyLower kv.1).toFinset
  | _ => ∅

/-- The candidate labels for threshold derivation: the provided label list
when truthy, otherwise the VAD table's keys
(`emotion_labels if emotion_labels else list(mapping.keys())`). -/
def negCandidates (emotion_labels : Option (List String)) (m : VADMapper) :
    List String :=
  match emotion_labels with
  | some ls => if ls.isEmpty then m.mapping.map Prod.fst else ls
  | none => m.mapping.map Prod.fst

/-- Status fields recorded by `init_negative_labels` (the set, the
`negative_labels_source` tag and, for derivation, `negative_threshold`). -/
structure NegInitResult where
  negative_labels : Finset String
  source : String
  negative_threshold : Option ℚ

/-- `app/analysis.py` `init_negative_labels`: take the explicit file when
present and parseable (source tag "file"), otherwise derive the canonical
forms of candidate labels whose mapped valence is under the configured
threshold (source tag "derived", threshold recorded).  `fileData = none`
models an absent or unparseable file. -/
def init_negative_labels (fileData : Option PyJson)
    (emotion_labels : Option (List String)) (m : VADMapper)
    (threshold : ℚ) : NegInitResult :=
  match fileData with
  | some data => ⟨_load_negative_from_file data, "file", none⟩
  | none =>
    let candidates := negCandidates emotion_labels m
    let derived := ((candidates.filter fun lbl =>
        decide ((m.map_label lbl).1 < threshold)).map fun lbl =>
        m.canonical lbl).toFinset
    ⟨derived, "derived", some threshold⟩

/-- C8. `init_negative_labels` records the file-derived set with source tag
"file" and stops when the file parses (list shape, object-with-`labels`
shape, truthy-keys shape, characterized by membership); when the file is
absent or unparseable it records source tag "derived" together with the used
threshold, and the set holds exactly the canonical forms of the candidate
labels (provided labels, else VAD-table keys) with valence strictly below
the threshold. -/
theorem c8_init_negative_labels (fileData : Option PyJson)
    (emotion_labels : Option (List String)) (m : VADMapper) (threshold : ℚ) :
    (∀ data, fileData = some data →
      (init_negative_labels fileData emotion_labels m threshold).source
          = "file"
      ∧ (init_negative_labels fileData emotion_labels m
          threshold).negative_threshold = none
      ∧ (∀ xs, data = .arr xs → ∀ lbl,
          lbl ∈ (init_negative_labels fileData emotion_labels m
            threshold).negative_labels ↔
          ∃ x ∈ xs, pyLower (pyStr x) = lbl)
      ∧ (∀ kvs ls, data = .obj kvs →
          kvs.lookup "labels" = some (.arr ls) → ∀ lbl,
          lbl ∈ (init_negative_labels fileData emotion_labels m
            threshold).negative_labels ↔
          ∃ x ∈ ls, pyLower (pyStr x) = lbl)
      ∧ (∀ kvs, data = .obj kvs →
          (∀ ls, kvs.lookup "labels" ≠ some (.arr ls)) → ∀ lbl,
          lbl ∈ (init_negative_labels fileData emotion_labels m
            threshold).negative_labels ↔
          ∃ kv ∈ kvs, pyTruthy kv.2 = true ∧ pyLower kv.1 = lbl))
    ∧ (fileData = none →
      (init_negative_labels fileData emotion_labels m threshold).source
          = "derived"
      ∧ (init_negative_labels fileData emotion_labels m
          threshold).negative_threshold = some threshold
      ∧ ∀ lbl, lbl ∈ (init_negative_labels fileData emotion_labels m
          threshold).negative_labels ↔
        ∃ cand ∈ negCandidates emotion_labels m,
          (m.map_label cand).1 < threshold ∧ m.canonical cand = lbl) := by
  constructor
  · rintro data rfl
    refine ⟨rfl, rfl, ?_, ?_, ?_⟩
    · rintro xs rfl lbl
      simp [init_negative_labels, _load_negative_from_file,
        List.mem_toFinset, List.mem_map]
    · rintro kvs ls rfl hlk lbl
      simp [init_negative_labels, _load_negative_from_file, hlk,
        List.mem_toFinset, List.mem_map]
    · rintro kvs rfl hno lbl
      cases hlk : kvs.lookup "labels" with
      | none =>
        simp [init_negative_labels, _load_negative_from_file, hlk,
          List.mem_toFinset, List.mem_map, List.mem_filter, and_assoc]
      | some j =>
        cases j with
        | arr ls => exact absurd hlk (hno ls)
        | str s =>
          simp [init_negative_labels, _load_negative_from_file, hlk,
            List.mem_toFinset, List.mem_map, List.mem_filter, and_assoc]
        | num n =>
          simp [init_negative_labels, _load_negative_from_file, hlk,
            List.mem_toFinset, List.mem_map, List.mem_filter, and_assoc]
        | bool b =>
          simp [init_negative_labels, _load_negative_from_file, hlk,
            List.mem_toFinset, List.mem_map, List.mem_filter, and_assoc]
        | null =>
          simp [init_negative_labels, _load_negative_from_file, hlk,
            List.mem_toFinset, List.mem_map, List.mem_filter, and_assoc]
        | obj kvs2 =>
          simp [init_negative_labels, _load_negative_from_file, hlk,
            List.mem_toFinset, List.mem_map, List.mem_filter, and_assoc]
  · rintro rfl
    refine ⟨rfl, rfl, ?_⟩
    intro lbl
    simp [init_negative_labels, List.mem_toFinset, List.mem_map,
      List.mem_filter, and_assoc]

/-- C8 witness: a parsed list-shaped file [\"Anger\"] is recorded with source
tag "file" and contains the lowered label "anger"; an absent file with no
label hints derives from the VAD table with the threshold recorded. -/
theorem c8_init_negative_labels_witness :
    (init_negative_labels (some (.arr [.str "Anger"])) none ⟨[], []⟩ 0).source
        = "file"
    ∧ "anger" ∈ (init_negative_labels (some (.arr [.str "Anger"])) none
        ⟨[], []⟩ 0).negative_labels
    ∧ (init_negative_labels none none ⟨[], []⟩ 0).source = "derived" := by
  have h := (c8_init_negative_labels (some (.arr [.str "Anger"])) none
    ⟨[], []⟩ 0).1 (.arr [.str "Anger"]) rfl
  have h2 := (c8_init_negative_labels none none ⟨[], []⟩ 0).2 rfl
  refine ⟨h.1, ?_, h2.1⟩
  refine (h.2.2.1 [.str "Anger"] rfl "anger").mpr ?_
  refine ⟨.str "Anger", by simp, ?_⟩
  decide

/-- The sentiment neutral-handling policy (`auto`/`on`/`off`); `onMode` and
`offMode` name the source's "on" and "off" strings. -/
inductive NeutralMode where
  | auto
  | onMode
  | offMode
deriving DecidableEq

/-- The three-key sentiment score dictionary (`negative`/`neutral`/`positive`
are the only keys `analyze_sentiment` ever inserts); a `none` field is an
absent key. -/
structure SDict where
  negative : Option ℚ
  neutral : Option ℚ
  positive : Option ℚ

/-- The empty dict `tmp = {}`. -/
def SDict.empty : SDict :=
  ⟨none, none, none⟩

/-- `sum(d.values())` (absent keys contribute nothing). -/
def SDict.sumValues (d : SDict) : ℚ :=
  d.negative.getD 0 + d.neutral.getD 0 + d.positive.getD 0

/-- `{k: f(v) for k, v in d.items()}`. -/
def SDict.mapValues (f : ℚ → ℚ) (d : SDict) : SDict :=
  ⟨d.negative.map f, d.neutral.map f, d.positive.map f⟩

/-- `for k in ("negative", "neutral", "positive"): d.setdefault(k, 0.0)`. -/
def SDict.setdefault0 (d : SDict) : SDict :=
  ⟨some (d.negative.getD 0), some (d.neutral.getD 0),
    some (d.positive.getD 0)⟩

/-- The dict's key set. -/
def SDict.keys (d : SDict) : Finset String :=
  (if d.negative.isSome then {"negative"} else ∅)
    ∪ (if d.neutral.isSome then {"neutral"} else ∅)
    ∪ (if d.positive.isSome then {"positive"} else ∅)

/-- `tmp["neutral"] = tmp.get("neutral", 0.0) + unknown_sum`. -/
def SDict.addNeutral (d : SDict) (u : ℚ) : SDict :=
  { d with neutral := some (d.neutral.getD 0 + u) }

/-- `"pos" in l or "positive" in l` on the lowered label. -/
def isPosL (lbl : String) : Bool :=
  strContains "pos" (pyLower lbl) || strContains "positive" (pyLower lbl)

/-- `"neg" in l or "negative" in l` on the lowered label. -/
def isNegL (lbl : String) : Bool :=
  strContains "neg" (pyLower lbl) || strContains "negative" (pyLower lbl)

/-- `"neu" in l or "neutral" in l` on the lowered label. -/
def isNeuL (lbl : String) : Bool :=
  strContains "neu" (pyLower lbl) || strContains "neutral" (pyLower lbl)

/-- A label matched by any of the three substring buckets. -/
def labelMatched (lbl : String) : Bool :=
  isPosL lbl || isNegL lbl || isNeuL lbl

/-- One iteration of the generic sentiment classification loop; the
accumulator is (tmp dict, unknown_sum), the positive bucket is checked
first, then negative, then neutral, and unmatched mass is held separately. -/
def genStep (acc : SDict × ℚ) (p : String × ℚ) : SDict × ℚ :=
  if isPosL p.1 then
    ({ acc.1 with positive := some (acc.1.positive.getD 0 + p.2) }, acc.2)
  else if isNegL p.1 then
    ({ acc.1 with negative := some (acc.1.negative.getD 0 + p.2) }, acc.2)
  else if isNeuL p.1 then
    ({ acc.1 with neutral := some (acc.1.neutral.getD 0 + p.2) }, acc.2)
  else (acc.1, acc.2 + p.2)

/-- `del neutral and renormalize {positive, negative}` with the
positive-biased zero-mass fallback — the shared tail of the generic
no-neutral branch and the star-rating `off` branch. -/
def dropNeutralRenorm (scores : SDict) : SDict :=
  let pos := scores.positive.getD 0
  let neg := scores.negative.getD 0
  let denom := pos + neg
  if denom ≤ 0 then ⟨some 0, none, some 1⟩
  else ⟨some (neg / denom), none, some (pos / denom)⟩

/-- Ensure the three keys exist, then renormalize by
`sum(scores.values()) or 1.0`. -/
def renormalizeWithNeutral (scores : SDict) : SDict :=
  let s2 := scores.setdefault0
  let total := if s2.sumValues = 0 then 1 else s2.sumValues
  s2.mapValues (· / total)

/-- `app/models.py` `analyze_sentiment`, generic-model path: bucket by
substring, optionally fold unknown mass into neutral, normalize by
`sum or 1.0`, then apply the neutral policy. -/
def generic_sentiment_scores (pairs : List (String × ℚ)) (mode : NeutralMode)
    (model_has_neutral : Bool) : SDict :=
  let st := pairs.foldl genStep (SDict.empty, 0)
  let tmp :=
    if model_has_neutral = true ∧ mode ≠ .offMode ∧ 0 < st.2 then
      st.1.addNeutral st.2
    else st.1
  let total := if tmp.sumValues = 0 then 1 else tmp.sumValues
  let scores := tmp.mapValues (· / total)
  if mode = .offMode ∨ (mode = .auto ∧ model_has_neutral = false) then
    dropNeutralRenorm scores
  else renormalizeWithNeutral scores

/-- Digits of a token as a natural number, `none` on a non-digit. -/
def charsToNat : List Char → Option ℕ
  | [] => none
  | cs => cs.foldl (fun acc c =>
      match acc with
      | none => none
      | some n => if c.isDigit then some (10 * n + (c.toNat - 48)) else none)
    (some 0)

/-- Python `int(label.split()[0])`: first whitespace-separated token parsed
as a (possibly signed) integer, `none` when there is no token or it is not
numeric (the source wraps this in `try/except` and skips the entry). -/
def pyParseIntToken (s : String) : Option Int :=
  let tok := (s.data.dropWhile fun c => c.isWhitespace).takeWhile
    fun c => !c.isWhitespace
  match tok with
  | [] => none
  | '-' :: rest => (charsToNat rest).map fun n => -(n : ℤ)
  | '+' :: rest => (charsToNat rest).map fun n => (n : ℤ)
  | cs => (charsToNat cs).map fun n => (n : ℤ)

/-- Python dict assignment `d[k] = v` on an int-keyed association list. -/
def dictSetInt : List (Int × ℚ) → Int → ℚ → List (Int × ℚ)
  | [], k, v => [(k, v)]
  | (k', v') :: rest, k, v =>
    if k' = k then (k, v) :: rest else (k', v') :: dictSetInt rest k v

/-- The `star_scores` dict of the star-rating path: parse the first token of
each label as the star count, keep its (last-assigned) score, skip
unparseable labels. -/
def star_scores_of (pairs : List (String × ℚ)) : List (Int × ℚ) :=
  pairs.foldl (fun acc p =>
    match pyParseIntToken p.1 with
    | some star => dictSetInt acc star p.2
    | none => acc) []

/-- `star_scores.get(k, 0.0)`. -/
def star_get (pairs : List (String × ℚ)) (k : Int) : ℚ :=
  ((star_scores_of pairs).lookup k).getD 0

/-- The total bucketed star mass `neg + neu + pos`. -/
def star_bucket_mass (pairs : List (String × ℚ)) : ℚ :=
  star_get pairs 1 + star_get pairs 2 + star_get pairs 3 +
    (star_get pairs 4 + star_get pairs 5)

/-- `app/models.py` `analyze_sentiment`, star-rating path (nlptown models):
bucket stars 1-2/3/4-5 into negative/neutral/positive, normalize by
`max(1e-9, total)`, drop neutral under the `off` policy. -/
def star_sentiment_scores (pairs : List (String × ℚ)) (mode : NeutralMode) :
    SDict :=
  let neg := star_get pairs 1 + star_get pairs 2
  let neu := star_get pairs 3
  let pos := star_get pairs 4 + star_get pairs 5
  let total := pyMax (1/1000000000) (neg + neu + pos)
  let scores : SDict := ⟨some (neg / total), some (neu / total),
    some (pos / total)⟩
  if mode = .offMode then dropNeutralRenorm scores else scores

/-- `app/models.py` `ModelManager.analyze_sentiment`, score-mapping part:
normalize the raw pipeline output, then dispatch on the star-rating model
family (`mid.startswith("nlptown/...")`, the `star` flag) or the generic
path.  The mode and the model's native-neutral flag come from configuration
and the model's label vocabulary. -/
def analyze_sentiment (star : Bool) (raw : List (String × ℚ))
    (mode : NeutralMode) (model_has_neutral : Bool) : SDict :=
  let pairs := _normalize_scores raw true
  if star = true then star_sentiment_scores pairs mode
  else generic_sentiment_scores pairs mode model_has_neutral

/-- Mass of the entries matched into one of the three buckets. -/
def matchedMass (pairs : List (String × ℚ)) : ℚ :=
  ((pairs.filter fun p => labelMatched p.1).map Prod.snd).sum

/-- Mass accumulated in the positive bucket. -/
def posMass (pairs : List (String × ℚ)) : ℚ :=
  ((pairs.filter fun p => isPosL p.1).map Prod.snd).sum

/-- Mass accumulated in the negative bucket (labels past the positive
check). -/
def negMass (pairs : List (String × ℚ)) : ℚ :=
  ((pairs.filter fun p => !isPosL p.1 && isNegL p.1).map Prod.snd).sum

/-- Mass of the unmatched entries (`unknown_sum`). -/
def unknownMass (pairs : List (String × ℚ)) : ℚ :=
  ((pairs.filter fun p => !(labelMatched p.1)).map Prod.snd).sum

/-- The total mass the generic path accumulates in its dict: matched mass
plus the unknown mass when it is folded into neutral. -/
def genericMass (pairs : List (String × ℚ)) (mode : NeutralMode)
    (hasNeu : Bool) : ℚ :=
  matchedMass pairs +
    (if hasNeu = true ∧ mode ≠ .offMode ∧ 0 < unknownMass pairs then
      unknownMass pairs
    else 0)

/-- The mode resolves to "no neutral key": policy `off`, or — for the
generic path — `auto` on a model without a native neutral-like label (the
star-rating family natively owns a neutral bucket, its stars 3). -/
def noNeutralResolved (star : Bool) (mode : NeutralMode) (hasNeu : Bool) :
    Prop :=
  if star = true then mode = .offMode
  else mode = .offMode ∨ (mode = .auto ∧ hasNeu = false)

lemma sumValues_mapValues_div (d : SDict) (t : ℚ) :
    (d.mapValues (· / t)).sumValues = d.sumValues / t := by
  rcases d with ⟨n, ne, po⟩
  cases n <;> cases ne <;> cases po <;>
    simp [SDict.mapValues, SDict.sumValues, add_div]

lemma sumValues_setdefault0 (d : SDict) :
    d.setdefault0.sumValues = d.sumValues := by
  rcases d with ⟨n, ne, po⟩
  simp [SDict.setdefault0, SDict.sumValues]

lemma sumValues_addNeutral (d : SDict) (u : ℚ) :
    (d.addNeutral u).sumValues = d.sumValues + u := by
  rcases d with ⟨n, ne, po⟩
  cases ne <;> simp [SDict.addNeutral, SDict.sumValues] <;> ring

lemma sumValues_update_pos (d : SDict) (s : ℚ) :
    ({ d with positive := some (d.positive.getD 0 + s) } : SDict).sumValues
      = d.sumValues + s := by
  rcases d with ⟨n, ne, po⟩
  cases po <;> simp [SDict.sumValues] <;> ring

lemma sumValues_update_neg (d : SDict) (s : ℚ) :
    ({ d with negative := some (d.negative.getD 0 + s) } : SDict).sumValues
      = d.sumValues + s := by
  rcases d with ⟨n, ne, po⟩
  cases n <;> simp [SDict.sumValues] <;> ring

lemma keys_two (a b : ℚ) :
    (⟨some a, none, some b⟩ : SDict).keys = {"negative", "positive"} := by
  simp only [SDict.keys, Option.isSome_some, Option.isSome_none, if_true,
    Bool.false_eq_true, if_false, Finset.union_empty]
  ext s
  simp [Finset.mem_union]

lemma keys_three (a b c : ℚ) :
    (⟨some a, some b, some c⟩ : SDict).keys
      = {"negative", "neutral", "positive"} := by
  simp only [SDict.keys, Option.isSome_some, if_true]
  ext s
  simp [Finset.mem_union, or_assoc]

lemma dropNeutralRenorm_keys (d : SDict) :
    (dropNeutralRenorm d).keys = {"negative", "positive"} := by
  simp only [dropNeutralRenorm]
  split_ifs with h
  · exact keys_two _ _
  · exact keys_two _ _

lemma dropNeutralRenorm_sum (d : SDict) :
    (dropNeutralRenorm d).sumValues = 1 := by
  simp only [dropNeutralRenorm]
  split_ifs with h
  · simp [SDict.sumValues]
  · have hne : d.positive.getD 0 + d.negative.getD 0 ≠ 0 :=
      ne_of_gt (not_le.mp h)
    simp only [SDict.sumValues, Option.getD_some, Option.getD_none]
    field_simp
    ring

lemma renormalizeWithNeutral_keys (d : SDict) :
    (renormalizeWithNeutral d).keys = {"negative", "neutral", "positive"} := by
  simp only [renormalizeWithNeutral, SDict.setdefault0, SDict.mapValues,
    Option.map_some']
  exact keys_three _ _ _

lemma renormalizeWithNeutral_sum (d : SDict) :
    (renormalizeWithNeutral d).sumValues = 1 ↔ d.sumValues ≠ 0 := by
  simp only [renormalizeWithNeutral]
  rw [sumValues_mapValues_div, sumValues_setdefault0]
  by_cases h : d.sumValues = 0
  · rw [if_pos h, h]
    norm_num
  · rw [if_neg h, div_self h]
    simp [h]

lemma renormalizeWithNeutral_sum_eq (d : SDict) :
    (renormalizeWithNeutral d).sumValues =
      if d.sumValues = 0 then 0 else 1 := by
  simp only [renormalizeWithNeutral]
  rw [sumValues_mapValues_div, sumValues_setdefault0]
  by_cases h : d.sumValues = 0
  · rw [if_pos h, if_pos h, h]
    norm_num
  · rw [if_neg h, if_neg h, div_self h]

lemma scores_sum (d : SDict) :
    (d.mapValues (· / (if d.sumValues = 0 then 1 else d.sumValues))).sumValues
      = if d.sumValues = 0 then 0 else 1 := by
  rw [sumValues_mapValues_div]
  by_cases h : d.sumValues = 0
  · rw [if_pos h, if_pos h, h]
    norm_num
  · rw [if_neg h, if_neg h, div_self h]

lemma matchedMass_cons (p : String × ℚ) (t : List (String × ℚ)) :
    matchedMass (p :: t) =
      (if labelMatched p.1 = true then p.2 else 0) + matchedMass t := by
  simp only [matchedMass, List.filter_cons]
  by_cases h : labelMatched p.1 = true
  · simp [h]
  · simp [h]

lemma unknownMass_cons (p : String × ℚ) (t : List (String × ℚ)) :
    unknownMass (p :: t) =
      (if labelMatched p.1 = true then 0 else p.2) + unknownMass t := by
  simp only [unknownMass, List.filter_cons]
  by_cases h : labelMatched p.1 = true
  · simp [h]
  · simp [h]

/-- The generic classification loop accumulates exactly the matched mass in
the dict and exactly the unmatched mass in `unknown_sum`. -/
lemma foldl_genStep (l : List (String × ℚ)) : ∀ (d : SDict) (u : ℚ),
    (l.foldl genStep (d, u)).1.sumValues = d.sumValues + matchedMass l
    ∧ (l.foldl genStep (d, u)).2 = u + unknownMass l := by
  induction l with
  | nil =>
    intro d u
    simp [matchedMass, unknownMass]
  | cons p t ih =>
    intro d u
    by_cases hp : isPosL p.1 = true
    · have hm : labelMatched p.1 = true := by simp [labelMatched, hp]
      have hstep : genStep (d, u) p =
          ({ d with positive := some (d.positive.getD 0 + p.2) }, u) := by
        simp [genStep, hp]
      rw [List.foldl_cons, hstep]
      refine ⟨?_, ?_⟩
      · rw [(ih _ _).1, sumValues_update_pos, matchedMass_cons]
        simp [hm]
        ring
      · rw [(ih _ _).2, unknownMass_cons]
        simp [hm]
    · by_cases hn : isNegL p.1 = true
      · have hm : labelMatched p.1 = true := by simp [labelMatched, hn]
        have hstep : genStep (d, u) p =
            ({ d with negative := some (d.negative.getD 0 + p.2) }, u) := by
          simp [genStep, hp, hn]
        rw [List.foldl_cons, hstep]
        refine ⟨?_, ?_⟩
        · rw [(ih _ _).1, sumValues_update_neg, matchedMass_cons]
          simp [hm]
          ring
        · rw [(ih _ _).2, unknownMass_cons]
          simp [hm]
      · by_cases hu : isNeuL p.1 = true
        · have hm : labelMatched p.1 = true := by simp [labelMatched, hu]
          have hstep : genStep (d, u) p = (d.addNeutral p.2, u) := by
            simp [genStep, hp, hn, hu, SDict.addNeutral]
          rw [List.foldl_cons, hstep]
          refine ⟨?_, ?_⟩
          · rw [(ih _ _).1, sumValues_addNeutral, matchedMass_cons]
            simp [hm]
            ring
          · rw [(ih _ _).2, unknownMass_cons]
            simp [hm]
        · have hm : labelMatched p.1 = false := by
            simp [labelMatched, hp, hn, hu]
          have hstep : genStep (d, u) p = (d, u + p.2) := by
            simp [genStep, hp, hn, hu]
          rw [List.foldl_cons, hstep]
          refine ⟨?_, ?_⟩
          · rw [(ih _ _).1, matchedMass_cons]
            simp [hm]
          · rw [(ih _ _).2, unknownMass_cons]
            simp [hm]
            ring

lemma posMass_cons (p : String × ℚ) (t : List (String × ℚ)) :
    posMass (p :: t) = (if isPosL p.1 = true then p.2 else 0) + posMass t := by
  simp only [posMass, List.filter_cons]
  by_cases h : isPosL p.1 = true
  · simp [h]
  · simp [h]

lemma negMass_cons (p : String × ℚ) (t : List (String × ℚ)) :
    negMass (p :: t) =
      (if (!isPosL p.1 && isNegL p.1) = true then p.2 else 0) + negMass t := by
  simp only [negMass, List.filter_cons]
  by_cases h : (!isPosL p.1 && isNegL p.1) = true
  · simp [h]
  · simp [h]

/-- The generic classification loop accumulates exactly the per-bucket
masses in the positive and negative fields of the dict. -/
lemma foldl_genStep_posneg (l : List (String × ℚ)) : ∀ (d : SDict) (u : ℚ),
    (l.foldl genStep (d, u)).1.positive.getD 0
        = d.positive.getD 0 + posMass l
    ∧ (l.foldl genStep (d, u)).1.negative.getD 0
        = d.negative.getD 0 + negMass l := by
  induction l with
  | nil =>
    intro d u
    simp [posMass, negMass]
  | cons p t ih =>
    intro d u
    by_cases hp : isPosL p.1 = true
    · have hstep : genStep (d, u) p =
          ({ d with positive := some (d.positive.getD 0 + p.2) }, u) := by
        simp [genStep, hp]
      rw [List.foldl_cons, hstep]
      refine ⟨?_, ?_⟩
      · rw [(ih _ _).1, posMass_cons]
        simp [hp]
        ring
      · rw [(ih _ _).2, negMass_cons]
        simp [hp]
    · by_cases hn : isNegL p.1 = true
      · have hstep : genStep (d, u) p =
            ({ d with negative := some (d.negative.getD 0 + p.2) }, u) := by
          simp [genStep, hp, hn]
        rw [List.foldl_cons, hstep]
        refine ⟨?_, ?_⟩
        · rw [(ih _ _).1, posMass_cons]
          simp [hp]
        · rw [(ih _ _).2, negMass_cons]
          simp [hp, hn]
          ring
      · by_cases hu : isNeuL p.1 = true
        · have hstep : genStep (d, u) p = (d.addNeutral p.2, u) := by
            simp [genStep, hp, hn, hu, SDict.addNeutral]
          rw [List.foldl_cons, hstep]
          refine ⟨?_, ?_⟩
          · rw [(ih _ _).1, posMass_cons]
            simp [hp, SDict.addNeutral]
          · rw [(ih _ _).2, negMass_cons]
            simp [hp, hn, SDict.addNeutral]
        · have hstep : genStep (d, u) p = (d, u + p.2) := by
            simp [genStep, hp, hn, hu]
          rw [List.foldl_cons, hstep]
          refine ⟨?_, ?_⟩
          · rw [(ih _ _).1, posMass_cons]
            simp [hp]
          · rw [(ih _ _).2, negMass_cons]
            simp [hp, hn]

lemma mapValues_positive_getD (d : SDict) (t : ℚ) :
    (d.mapValues (· / t)).positive.getD 0 = d.positive.getD 0 / t := by
  rcases d with ⟨n, ne, po⟩
  cases po <;> simp [SDict.mapValues, zero_div]

lemma mapValues_negative_getD (d : SDict) (t : ℚ) :
    (d.mapValues (· / t)).negative.getD 0 = d.negative.getD 0 / t := by
  rcases d with ⟨n, ne, po⟩
  cases n <;> simp [SDict.mapValues, zero_div]

/-- When both the positive and the negative entry carry zero mass, dropping
neutral hits the `denom <= 0` branch and yields the positive-biased
fallback {positive: 1.0, negative: 0.0}. -/
lemma dropNeutralRenorm_fallback (d : SDict)
    (hp : d.positive.getD 0 = 0) (hn : d.negative.getD 0 = 0) :
    dropNeutralRenorm d = ⟨some 0, none, some 1⟩ := by
  simp only [dropNeutralRenorm, hp, hn]
  norm_num

/-- Generic path: zero positive and negative bucket masses force the
{positive: 1.0, negative: 0.0} fallback in the no-neutral branch. -/
lemma generic_sentiment_fallback (pairs : List (String × ℚ))
    (mode : NeutralMode) (hasNeu : Bool)
    (h : mode = .offMode ∨ (mode = .auto ∧ hasNeu = false))
    (hp : posMass pairs = 0) (hn : negMass pairs = 0) :
    generic_sentiment_scores pairs mode hasNeu = ⟨some 0, none, some 1⟩ := by
  have hpz : (pairs.foldl genStep (SDict.empty, 0)).1.positive.getD 0
      = 0 := by
    rw [(foldl_genStep_posneg pairs SDict.empty 0).1, hp]
    simp [SDict.empty]
  have hnz : (pairs.foldl genStep (SDict.empty, 0)).1.negative.getD 0
      = 0 := by
    rw [(foldl_genStep_posneg pairs SDict.empty 0).2, hn]
    simp [SDict.empty]
  simp only [generic_sentiment_scores]
  rw [if_pos h]
  apply dropNeutralRenorm_fallback
  · rw [mapValues_positive_getD]
    have htmp : (if hasNeu = true ∧ mode ≠ .offMode ∧
        0 < (pairs.foldl genStep (SDict.empty, 0)).2 then
          (pairs.foldl genStep (SDict.empty, 0)).1.addNeutral
            (pairs.foldl genStep (SDict.empty, 0)).2
        else (pairs.foldl genStep (SDict.empty, 0)).1).positive
        = (pairs.foldl genStep (SDict.empty, 0)).1.positive := by
      split_ifs with hc
      · rfl
      · rfl
    rw [htmp, hpz, zero_div]
  · rw [mapValues_negative_getD]
    have htmp : (if hasNeu = true ∧ mode ≠ .offMode ∧
        0 < (pairs.foldl genStep (SDict.empty, 0)).2 then
          (pairs.foldl genStep (SDict.empty, 0)).1.addNeutral
            (pairs.foldl genStep (SDict.empty, 0)).2
        else (pairs.foldl genStep (SDict.empty, 0)).1).negative
        = (pairs.foldl genStep (SDict.empty, 0)).1.negative := by
      split_ifs with hc
      · rfl
      · rfl
    rw [htmp, hnz, zero_div]

/-- Star path: zero positive and negative star-bucket masses force the
{positive: 1.0, negative: 0.0} fallback under the `off` policy. -/
lemma star_sentiment_fallback (pairs : List (String × ℚ))
    (mode : NeutralMode) (h : mode = .offMode)
    (hp : star_get pairs 4 + star_get pairs 5 = 0)
    (hn : star_get pairs 1 + star_get pairs 2 = 0) :
    star_sentiment_scores pairs mode = ⟨some 0, none, some 1⟩ := by
  simp only [star_sentiment_scores]
  rw [if_pos h]
  apply dropNeutralRenorm_fallback
  · simp only [Option.getD_some]
    rw [hp, zero_div]
  · simp only [Option.getD_some]
    rw [hn, zero_div]

/-- Generic-path evaluation: the no-neutral branch always yields the
two-key unit-mass dict; the neutral-keeping branch yields the three keys
and unit mass exactly when the accumulated dict mass is nonzero. -/
lemma generic_sentiment_eval (pairs : List (String × ℚ)) (mode : NeutralMode)
    (hasNeu : Bool) :
    ((mode = .offMode ∨ (mode = .auto ∧ hasNeu = false)) →
      (generic_sentiment_scores pairs mode hasNeu).keys
          = {"negative", "positive"}
      ∧ (generic_sentiment_scores pairs mode hasNeu).sumValues = 1)
    ∧ (¬ (mode = .offMode ∨ (mode = .auto ∧ hasNeu = false)) →
      (generic_sentiment_scores pairs mode hasNeu).keys
          = {"negative", "neutral", "positive"}
      ∧ ((generic_sentiment_scores pairs mode hasNeu).sumValues = 1 ↔
          genericMass pairs mode hasNeu ≠ 0)) := by
  have hms : (pairs.foldl genStep (SDict.empty, 0)).1.sumValues
      = matchedMass pairs := by
    rw [(foldl_genStep pairs SDict.empty 0).1]
    simp [SDict.empty, SDict.sumValues]
  have hus : (pairs.foldl genStep (SDict.empty, 0)).2 = unknownMass pairs := by
    rw [(foldl_genStep pairs SDict.empty 0).2, zero_add]
  have hmass :
      (if hasNeu = true ∧ mode ≠ .offMode ∧
          0 < (pairs.foldl genStep (SDict.empty, 0)).2 then
        (pairs.foldl genStep (SDict.empty, 0)).1.addNeutral
          (pairs.foldl genStep (SDict.empty, 0)).2
      else (pairs.foldl genStep (SDict.empty, 0)).1).sumValues
      = genericMass pairs mode hasNeu := by
    rw [genericMass, hus]
    split_ifs with h
    · rw [sumValues_addNeutral, hms]
    · rw [hms, add_zero]
  constructor
  · intro h
    simp only [generic_sentiment_scores]
    rw [if_pos h]
    exact ⟨dropNeutralRenorm_keys _, dropNeutralRenorm_sum _⟩
  · intro h
    simp only [generic_sentiment_scores]
    rw [if_neg h]
    refine ⟨renormalizeWithNeutral_keys _, ?_⟩
    rw [renormalizeWithNeutral_sum, scores_sum, hmass]
    by_cases hz : genericMass pairs mode hasNeu = 0
    · simp [hz]
    · simp [hz]

/-- Star-path evaluation: under `off` the two-key unit-mass dict; otherwise
three keys, with unit mass exactly when the bucketed star mass reaches the
1e-9 floor of the normalizer. -/
lemma star_sentiment_eval (pairs : List (String × ℚ)) (mode : NeutralMode) :
    (mode = .offMode →
      (star_sentiment_scores pairs mode).keys = {"negative", "positive"}
      ∧ (star_sentiment_scores pairs mode).sumValues = 1)
    ∧ (mode ≠ .offMode →
      (star_sentiment_scores pairs mode).keys
          = {"negative", "neutral", "positive"}
      ∧ ((star_sentiment_scores pairs mode).sumValues = 1 ↔
          1/1000000000 ≤ star_bucket_mass pairs)) := by
  constructor
  · intro h
    simp only [star_sentiment_scores]
    rw [if_pos h]
    exact ⟨dropNeutralRenorm_keys _, dropNeutralRenorm_sum _⟩
  · intro h
    simp only [star_sentiment_scores]
    rw [if_neg h]
    refine ⟨keys_three _ _ _, ?_⟩
    have hsum : (⟨some ((star_get pairs 1 + star_get pairs 2) /
        pyMax (1/1000000000) (star_get pairs 1 + star_get pairs 2 +
          star_get pairs 3 + (star_get pairs 4 + star_get pairs 5))),
        some (star_get pairs 3 /
        pyMax (1/1000000000) (star_get pairs 1 + star_get pairs 2 +
          star_get pairs 3 + (star_get pairs 4 + star_get pairs 5))),
        some ((star_get pairs 4 + star_get pairs 5) /
        pyMax (1/1000000000) (star_get pairs 1 + star_get pairs 2 +
          star_get pairs 3 + (star_get pairs 4 + star_get pairs 5)))⟩ :
          SDict).sumValues
        = star_bucket_mass pairs /
          pyMax (1/1000000000) (star_bucket_mass pairs) := by
      simp only [SDict.sumValues, Option.getD_some, star_bucket_mass]
      rw [div_add_div_same, div_add_div_same]
    rw [hsum, pyMax]
    split_ifs with hlt
    · have hpos : (0 : ℚ) < star_bucket_mass pairs :=
        lt_trans (by norm_num) hlt
      rw [div_self (ne_of_gt hpos)]
      exact ⟨fun _ => hlt.le, fun _ => rfl⟩
    · have hle : star_bucket_mass pairs ≤ 1/1000000000 := not_lt.mp hlt
      have hne : (1/1000000000 : ℚ) ≠ 0 := by norm_num
      rw [div_eq_one_iff_eq hne]
      constructor
      · intro he
        rw [he]
      · intro hge
        exact le_antisymm hle hge

/-- Generic-path neutral-keeping branch: the final sum is 0 when the
accumulated mass is 0 and 1 otherwise. -/
lemma generic_sentiment_sum_eq (pairs : List (String × ℚ))
    (mode : NeutralMode) (hasNeu : Bool)
    (h : ¬ (mode = .offMode ∨ (mode = .auto ∧ hasNeu = false))) :
    (generic_sentiment_scores pairs mode hasNeu).sumValues =
      if genericMass pairs mode hasNeu = 0 then 0 else 1 := by
  have hms : (pairs.foldl genStep (SDict.empty, 0)).1.sumValues
      = matchedMass pairs := by
    rw [(foldl_genStep pairs SDict.empty 0).1]
    simp [SDict.empty, SDict.sumValues]
  have hus : (pairs.foldl genStep (SDict.empty, 0)).2 = unknownMass pairs := by
    rw [(foldl_genStep pairs SDict.empty 0).2, zero_add]
  have hmass :
      (if hasNeu = true ∧ mode ≠ .offMode ∧
          0 < (pairs.foldl genStep (SDict.empty, 0)).2 then
        (pairs.foldl genStep (SDict.empty, 0)).1.addNeutral
          (pairs.foldl genStep (SDict.empty, 0)).2
      else (pairs.foldl genStep (SDict.empty, 0)).1).sumValues
      = genericMass pairs mode hasNeu := by
    rw [genericMass, hus]
    split_ifs with hcond
    · rw [sumValues_addNeutral, hms]
    · rw [hms, add_zero]
  simp only [generic_sentiment_scores]
  rw [if_neg h, renormalizeWithNeutral_sum_eq, scores_sum, hmass]
  by_cases hz : genericMass pairs mode hasNeu = 0
  · simp [hz]
  · simp [hz]

/-- C3 (corrected).  For every raw distribution and policy, the Sentiment
Normalizer's key set is exactly {negative, positive} when the mode resolves
to no-neutral (off; or auto with no native neutral on the generic path —
the star path natively owns a neutral bucket) and exactly
{negative, neutral, positive} otherwise, and in the no-neutral case the
scores always sum to exactly 1; in the neutral-keeping case they sum to 1
exactly when the accumulated bucket mass is nonzero (generic path) resp. at
least the 1e-9 normalizer floor (star path) — with zero accumulated mass
every value is 0 and the sum is 0, not 1.  In the no-neutral case, when the
positive and negative bucket masses are both zero, the result is exactly
{positive: 1.0, negative: 0.0}. -/
theorem c3_sentiment_normalizer_amended (star : Bool)
    (raw : List (String × ℚ)) (mode : NeutralMode) (hasNeu : Bool) :
    (noNeutralResolved star mode hasNeu →
      (analyze_sentiment star raw mode hasNeu).keys
          = {"negative", "positive"}
      ∧ (analyze_sentiment star raw mode hasNeu).sumValues = 1)
    ∧ (¬ noNeutralResolved star mode hasNeu →
      (analyze_sentiment star raw mode hasNeu).keys
          = {"negative", "neutral", "positive"}
      ∧ ((analyze_sentiment star raw mode hasNeu).sumValues = 1 ↔
          (if star = true then
            1/1000000000 ≤ star_bucket_mass (_normalize_scores raw true)
          else genericMass (_normalize_scores raw true) mode hasNeu ≠ 0)))
    ∧ (noNeutralResolved star mode hasNeu →
      (if star = true then
        star_get (_normalize_scores raw true) 4 +
          star_get (_normalize_scores raw true) 5 = 0 ∧
        star_get (_normalize_scores raw true) 1 +
          star_get (_normalize_scores raw true) 2 = 0
      else posMass (_normalize_scores raw true) = 0 ∧
        negMass (_normalize_scores raw true) = 0) →
      analyze_sentiment star raw mode hasNeu =
        { negative := some 0, neutral := none, positive := some 1 }) := by
  cases star
  · have h := generic_sentiment_eval (_normalize_scores raw true) mode hasNeu
    have heq : analyze_sentiment false raw mode hasNeu =
        generic_sentiment_scores (_normalize_scores raw true) mode hasNeu := by
      simp [analyze_sentiment]
    have hres : noNeutralResolved false mode hasNeu =
        (mode = .offMode ∨ (mode = .auto ∧ hasNeu = false)) := by
      simp [noNeutralResolved]
    rw [heq, hres]
    refine ⟨h.1, fun hn => ⟨(h.2 hn).1, ?_⟩, ?_⟩
    · rw [(h.2 hn).2]
      simp
    · intro hn hz
      simp only [Bool.false_eq_true, if_false] at hz
      exact generic_sentiment_fallback _ _ _ hn hz.1 hz.2
  · have h := star_sentiment_eval (_normalize_scores raw true) mode
    have heq : analyze_sentiment true raw mode hasNeu =
        star_sentiment_scores (_normalize_scores raw true) mode := by
      simp [analyze_sentiment]
    have hres : noNeutralResolved true mode hasNeu = (mode = .offMode) := by
      simp [noNeutralResolved]
    rw [heq, hres]
    refine ⟨h.1, fun hn => ⟨(h.2 hn).1, ?_⟩, ?_⟩
    · rw [(h.2 hn).2]
      simp
    · intro hn hz
      simp only [if_true] at hz
      exact star_sentiment_fallback _ _ hn hz.1 hz.2

/-- C3 counterexample to the claim as stated: with policy `on`, a generic
model without a native neutral label, and the raw distribution
[("foo", 1)] (all mass on an unmatched label), the returned scores are
{negative: 0, neutral: 0, positive: 0} — their sum is 0, not 1. -/
theorem c3_counterexample :
    (analyze_sentiment false [("foo", 1)] .onMode false).sumValues = 0 ∧
    (analyze_sentiment false [("foo", 1)] .onMode false).sumValues ≠ 1 := by
  have hpairs : _normalize_scores [("foo", (1:ℚ))] true = [("foo", 1)] := by
    norm_num [_normalize_scores, pyMax]
  have hlab : labelMatched "foo" = false := by decide
  have hmm : matchedMass [("foo", (1:ℚ))] = 0 := by
    simp [matchedMass, List.filter_cons, hlab]
  have hgm : genericMass [("foo", (1:ℚ))] .onMode false = 0 := by
    simp [genericMass, hmm]
  have heq : analyze_sentiment false [("foo", 1)] NeutralMode.onMode false =
      generic_sentiment_scores (_normalize_scores [("foo", 1)] true)
        .onMode false := by
    simp [analyze_sentiment]
  have hsum : (analyze_sentiment false [("foo", 1)] .onMode false).sumValues
      = 0 := by
    rw [heq, generic_sentiment_sum_eq _ _ _ (by simp), hpairs, hgm,
      if_pos rfl]
  exact ⟨hsum, by rw [hsum]; norm_num⟩

/-- C3 witness: the no-neutral case of the amended theorem at the concrete
input [("positive", 1)] under policy `off` — the scores sum to 1 — and the
zero-mass fallback at [("foo", 1)] under `off`, where both bucket masses are
zero and the result is exactly {positive: 1.0, negative: 0.0}. -/
theorem c3_sentiment_normalizer_amended_witness :
    (analyze_sentiment false [("positive", 1)] .offMode false).sumValues = 1
    ∧ analyze_sentiment false [("foo", 1)] .offMode false =
        { negative := some 0, neutral := none, positive := some 1 } := by
  constructor
  · exact ((c3_sentiment_normalizer_amended false [("positive", 1)]
      .offMode false).1 (by simp [noNeutralResolved])).2
  · have hpairs : _normalize_scores [("foo", (1:ℚ))] true = [("foo", 1)] := by
      norm_num [_normalize_scores, pyMax]
    refine (c3_sentiment_normalizer_amended false [("foo", 1)]
      .offMode false).2.2 (by simp [noNeutralResolved]) ?_
    simp only [Bool.false_eq_true, if_false, hpairs]
    constructor
    · simp [posMass, List.filter_cons, (by decide : isPosL "foo" = false)]
    · simp [negMass, List.filter_cons, (by decide : isPosL "foo" = false),
        (by decide : isNegL "foo" = false)]

end SentraEmo
